import Mathlib

/-!
# Smart Invoice Splitting — verification of the core algorithms

This file embeds the core algorithms of the invoice-splitting service in
Lean 4 and proves (or refutes) the specification's claims about them:

* the span reconciler `validateSplits` (two implementations: the AI
  boundary-detection service in `azure-openai.service.js` and the PDF
  splitter service), embedded as `validateSplitsAI` / `validateSplitsPDF`
  over page-range records;
* the numeric normalizer `parseNumericValue` and the line-item unit-price
  guardrail `normalizeItemsNumbers` from `processing.controller.js`;
* the date normalizer `toISODate` and the `amountDue` derivation of
  `normalizeInvoice` from `extractFromLayout.js`;
* the AI-response parser `parseAIResponse` with its fallback span;
* the batch-lifecycle status guards of the processing controller.

JavaScript numbers are modelled as exact rationals (`ℚ`); machine
floating-point rounding is outside the scope of the claims treated here.
-/

/-! ## Page spans and the span reconciler

A span is an inclusive 1-indexed page range.  Only the `startPage` /
`endPage` fields participate in the reconciliation arithmetic; the
metadata carried alongside (`id`, `invoiceNumber`, `confidence`,
`reasoning`, `pageRange`) is untouched by the range logic and is modelled
separately where a claim needs it. -/
structure Span where
  startPage : Int
  endPage : Int
  deriving DecidableEq, Repr

/-- One step of a stable insertion sort keyed on `startPage`: the element
`x` is placed before the first element whose key is not smaller, so that
elements with equal keys keep their original relative order — matching
the stable `Array.prototype.sort((a, b) => a.startPage - b.startPage)`
used by both JavaScript implementations. -/
def insertSpan (x : Span) : List Span → List Span
  | [] => [x]
  | y :: ys => if y.startPage < x.startPage then y :: insertSpan x ys else x :: y :: ys

/-- Stable sort by `startPage`, modelling `splits.sort((a, b) => a.startPage - b.startPage)`. -/
def sortSpans : List Span → List Span
  | [] => []
  | x :: xs => insertSpan x (sortSpans xs)

/-- The `forEach` walk shared by both `validateSplits` implementations.
For each split in order: `start = max(split.startPage, currentPage)`,
`end = min(split.endPage, totalPages)`, `end = max(end, start)`; the
clamped span is emitted and the cursor advanced only when
`start ≤ totalPages`, otherwise the split is discarded and the cursor is
left unchanged.  Returns the emitted spans together with the final value
of `currentPage`. -/
def clampWalk (totalPages : Int) : List Span → Int → List Span × Int
  | [], cur => ([], cur)
  | s :: rest, cur =>
      let start := max s.startPage cur
      let e := min s.endPage totalPages
      let fin := max e start
      if start ≤ totalPages then
        let r := clampWalk totalPages rest (fin + 1)
        (⟨start, fin⟩ :: r.1, r.2)
      else
        clampWalk totalPages rest cur

/-- `lastSplit.endPage = totalPages`: overwrite the last span's end page. -/
def setLastEnd (n : Int) : List Span → List Span
  | [] => []
  | [s] => [⟨s.startPage, n⟩]
  | s :: t :: rest => s :: setLastEnd n (t :: rest)

/-- `validateSplits` of the AI boundary-detection service
(`azure-openai.service.js`, lines 398–463), restricted to the page
ranges.  An empty candidate list returns the single fallback span
`[1, totalPages]` up front; otherwise the candidates are sorted, walked
with `clampWalk`, and any trailing uncovered pages are absorbed by
extending the last emitted span (or, when nothing was emitted, by a
fresh span starting at the unchanged cursor). -/
def validateSplitsAI (splits : List Span) (totalPages : Int) : List Span :=
  if splits.isEmpty then [⟨1, totalPages⟩]
  else
    let w := clampWalk totalPages (sortSpans splits) 1
    if w.2 ≤ totalPages then
      if w.1.isEmpty then [⟨w.2, totalPages⟩]
      else setLastEnd totalPages w.1
    else w.1

/-- `validateSplits` of the PDF splitter service (same algorithm, no
early return for the empty list: the empty walk falls through to the
remaining-pages branch, which emits the fallback span `[1, totalPages]`
with literal start page 1). -/
def validateSplitsPDF (splits : List Span) (totalPages : Int) : List Span :=
  let w := clampWalk totalPages (sortSpans splits) 1
  if w.2 ≤ totalPages then
    if w.1.isEmpty then [⟨1, totalPages⟩]
    else setLastEnd totalPages w.1
  else w.1

/-! ### Output-shape predicates -/

/-- `chainFrom c N l`: every span of `l` lies inside `[c, N]`, has
`startPage ≤ endPage`, and consecutive spans satisfy
`endPage + 1 ≤ next.startPage` (strictly increasing, non-overlapping);
the first span starts no earlier than the cursor `c`. -/
def chainFrom (c N : Int) : List Span → Bool
  | [] => true
  | s :: rest =>
      (decide (c ≤ s.startPage) && decide (s.startPage ≤ s.endPage) &&
       decide (s.endPage ≤ N)) && chainFrom (s.endPage + 1) N rest

/-- End page of the last span, if any. -/
def lastEndOf : List Span → Option Int
  | [] => none
  | [s] => some s.endPage
  | _ :: t :: rest => lastEndOf (t :: rest)

/-- Sorted ascending by `startPage` (adjacent comparison). -/
def sortedByStart : List Span → Bool
  | [] => true
  | [_] => true
  | s :: t :: rest => decide (s.startPage ≤ t.startPage) && sortedByStart (t :: rest)

/-- Adjacent spans are contiguous: `endPage + 1 = next.startPage`. -/
def contiguous : List Span → Bool
  | [] => true
  | [_] => true
  | s :: t :: rest => decide (s.endPage + 1 = t.startPage) && contiguous (t :: rest)

/-- The first span starts at `c`. -/
def headStartIs (c : Int) : List Span → Bool
  | [] => false
  | s :: _ => decide (s.startPage = c)

/-- Every span satisfies `startPage ≤ endPage`. -/
def allStartLeEnd (l : List Span) : Bool :=
  l.all fun s => decide (s.startPage ≤ s.endPage)

/-- The tiling property claimed for the reconciler's output: sorted
ascending by start page, first start page 1, last end page `N`, every
span non-empty, and no gaps or overlaps between consecutive spans. -/
def isClaimTiling (N : Int) (l : List Span) : Bool :=
  sortedByStart l && headStartIs 1 l && (lastEndOf l == some N) &&
    allStartLeEnd l && contiguous l

/-- Recursive form of the tiling property, anchored at cursor `c`:
nonempty, first span starts exactly at `c`, spans are non-empty and
contiguous, and the last span ends exactly at `N`. -/
def tilesFrom (c N : Int) : List Span → Bool
  | [] => false
  | [s] => decide (s.startPage = c) && decide (s.startPage ≤ s.endPage) &&
      decide (s.endPage = N)
  | s :: t :: rest => decide (s.startPage = c) && decide (s.startPage ≤ s.endPage) &&
      tilesFrom (s.endPage + 1) N (t :: rest)

/-! ### Lemmas about the walk -/

/-- Unfolding lemma for `chainFrom` on a cons cell, used to peel exactly
one layer without recursively unfolding the tail. -/
theorem chainFrom_cons (c N : Int) (s : Span) (l : List Span) :
    chainFrom c N (s :: l) =
      ((decide (c ≤ s.startPage) && decide (s.startPage ≤ s.endPage) &&
        decide (s.endPage ≤ N)) && chainFrom (s.endPage + 1) N l) := rfl

/-- If the walk emits nothing, the cursor is unchanged. -/
theorem clampWalk_snd_of_fst_nil (N : Int) :
    ∀ (l : List Span) (cur : Int),
      (clampWalk N l cur).1 = [] → (clampWalk N l cur).2 = cur
  | [], cur => by simp [clampWalk]
  | s :: rest, cur => by
      simp only [clampWalk]
      split
      · intro h
        simp at h
      · exact clampWalk_snd_of_fst_nil N rest cur

/-- The emitted spans always form a chain anchored at the incoming cursor:
non-empty spans inside `[cursor, N]`, strictly increasing and
non-overlapping. -/
theorem clampWalk_chain (N : Int) :
    ∀ (l : List Span) (cur : Int),
      chainFrom cur N (clampWalk N l cur).1 = true
  | [], cur => by simp [clampWalk, chainFrom]
  | s :: rest, cur => by
      simp only [clampWalk]
      split
      · next hguard =>
        have h1 : cur ≤ max s.startPage cur := le_max_right _ _
        have h2 : max s.startPage cur ≤ max (min s.endPage N) (max s.startPage cur) :=
          le_max_right _ _
        have h3 : max (min s.endPage N) (max s.startPage cur) ≤ N :=
          max_le (min_le_right _ _) hguard
        have ih := clampWalk_chain N rest (max (min s.endPage N) (max s.startPage cur) + 1)
        simp [chainFrom, h1, h2, h3, ih]
      · exact clampWalk_chain N rest cur

/-- When the walk emits at least one span, the final cursor sits one page
past the last emitted span's end page. -/
theorem clampWalk_lastEnd (N : Int) :
    ∀ (l : List Span) (cur : Int),
      (clampWalk N l cur).1 ≠ [] →
      lastEndOf (clampWalk N l cur).1 = some ((clampWalk N l cur).2 - 1)
  | [], cur => by simp [clampWalk]
  | s :: rest, cur => by
      simp only [clampWalk]
      split
      · next hguard =>
        intro _
        rcases hr : (clampWalk N rest (max (min s.endPage N) (max s.startPage cur) + 1)).1
          with _ | ⟨t, ts⟩
        · have h2 := clampWalk_snd_of_fst_nil N rest
            (max (min s.endPage N) (max s.startPage cur) + 1) hr
          simp [hr, h2, lastEndOf]
        · have ih := clampWalk_lastEnd N rest
            (max (min s.endPage N) (max s.startPage cur) + 1) (by simp [hr])
          simp only [hr, lastEndOf] at ih ⊢
          exact ih
      · intro h
        exact clampWalk_lastEnd N rest cur h

/-- The last end page of a chain below `N` is at most `N`. -/
theorem chainFrom_lastEnd_le (N : Int) :
    ∀ (l : List Span) (c e : Int),
      chainFrom c N l = true → lastEndOf l = some e → e ≤ N
  | [], c, e => by simp [lastEndOf]
  | [s], c, e => by
      intro hc hl
      simp only [lastEndOf, Option.some.injEq] at hl
      simp only [chainFrom, Bool.and_eq_true, decide_eq_true_eq] at hc
      omega
  | s :: t :: rest, c, e => by
      intro hc hl
      rw [chainFrom_cons, Bool.and_eq_true] at hc
      simp only [lastEndOf] at hl
      exact chainFrom_lastEnd_le N (t :: rest) (s.endPage + 1) e hc.2 hl

/-! ### Lemmas about the trailing-pages fixup -/

theorem setLastEnd_ne_nil (n : Int) :
    ∀ (l : List Span), l ≠ [] → setLastEnd n l ≠ []
  | [], h => absurd rfl h
  | [_], _ => by simp [setLastEnd]
  | _ :: _ :: _, _ => by simp [setLastEnd]

theorem lastEndOf_setLastEnd (n : Int) :
    ∀ (l : List Span), l ≠ [] → lastEndOf (setLastEnd n l) = some n
  | [], h => absurd rfl h
  | [_], _ => by simp [setLastEnd, lastEndOf]
  | s :: t :: rest, _ => by
      have ih := lastEndOf_setLastEnd n (t :: rest) (by simp)
      rcases hr : setLastEnd n (t :: rest) with _ | ⟨u, us⟩
      · exact absurd hr (setLastEnd_ne_nil n (t :: rest) (by simp))
      · simp only [setLastEnd, hr, lastEndOf] at ih ⊢
        exact ih

/-- Extending the last span of a chain out to the bound `N` preserves the
chain property. -/
theorem chainFrom_setLastEnd (N : Int) :
    ∀ (l : List Span) (c : Int),
      chainFrom c N l = true → chainFrom c N (setLastEnd N l) = true
  | [], c => by simp [setLastEnd]
  | [s], c => by
      intro h
      simp only [chainFrom, Bool.and_eq_true, decide_eq_true_eq] at h
      simp only [setLastEnd, chainFrom, Bool.and_eq_true, decide_eq_true_eq,
        Span.mk.injEq]
      refine ⟨⟨⟨?_, ?_⟩, le_refl N⟩, trivial⟩ <;> omega
  | s :: t :: rest, c => by
      intro h
      rw [chainFrom_cons, Bool.and_eq_true] at h
      have ih := chainFrom_setLastEnd N (t :: rest) (s.endPage + 1) h.2
      show chainFrom c N (s :: setLastEnd N (t :: rest)) = true
      rw [chainFrom_cons, Bool.and_eq_true]
      exact ⟨h.1, ih⟩

/-! ### C1 — what the reconciler actually guarantees -/

/-- C1 (corrected): for every candidate list and every total page count
`N ≥ 1`, `validateSplits` returns a nonempty list of spans that is a
chain inside `[1, N]` — sorted with strictly increasing start pages,
every span satisfying `1 ≤ startPage ≤ endPage ≤ N`, consecutive spans
non-overlapping (`endPage + 1 ≤ next.startPage`) — whose last span ends
exactly at page `N`.  (The claimed full tiling of `[1, N]` fails: leading
and interior gaps left by the candidates are never filled, see
`validateSplitsAI_not_claimTiling`.) -/
theorem validateSplitsAI_chain_invariants (splits : List Span) (N : Int) (hN : 1 ≤ N) :
    validateSplitsAI splits N ≠ [] ∧
    chainFrom 1 N (validateSplitsAI splits N) = true ∧
    lastEndOf (validateSplitsAI splits N) = some N := by
  unfold validateSplitsAI
  by_cases hemp : splits.isEmpty
  · rw [if_pos hemp]
    refine ⟨by simp, ?_, by simp [lastEndOf]⟩
    simp [chainFrom, hN]
  · rw [if_neg hemp]
    by_cases hcur : (clampWalk N (sortSpans splits) 1).2 ≤ N
    · rw [if_pos hcur]
      by_cases hnil : (clampWalk N (sortSpans splits) 1).1.isEmpty
      · rw [if_pos hnil]
        have h1 := clampWalk_snd_of_fst_nil N (sortSpans splits) 1
          (List.isEmpty_iff.mp hnil)
        rw [h1]
        refine ⟨by simp, ?_, by simp [lastEndOf]⟩
        simp [chainFrom, hN]
      · rw [if_neg hnil]
        have hne : (clampWalk N (sortSpans splits) 1).1 ≠ [] :=
          fun h => hnil (by simp [h])
        exact ⟨setLastEnd_ne_nil N _ hne,
          chainFrom_setLastEnd N _ 1 (clampWalk_chain N (sortSpans splits) 1),
          lastEndOf_setLastEnd N _ hne⟩
    · rw [if_neg hcur]
      have hne : (clampWalk N (sortSpans splits) 1).1 ≠ [] := by
        intro h
        exact hcur (by rw [clampWalk_snd_of_fst_nil N (sortSpans splits) 1 h]; exact hN)
      refine ⟨hne, clampWalk_chain N (sortSpans splits) 1, ?_⟩
      have hlast := clampWalk_lastEnd N (sortSpans splits) 1 hne
      have hle := chainFrom_lastEnd_le N (clampWalk N (sortSpans splits) 1).1 1
        ((clampWalk N (sortSpans splits) 1).2 - 1)
        (clampWalk_chain N (sortSpans splits) 1) hlast
      rw [hlast]
      congr 1
      omega

/-- Witness for `validateSplitsAI_chain_invariants` at the concrete input
`[⟨2,4⟩]`, `N = 6`. -/
theorem validateSplitsAI_chain_invariants_witness :
    (1 : Int) ≤ 6 ∧
    (validateSplitsAI [⟨2, 4⟩] 6 ≠ [] ∧
     chainFrom 1 6 (validateSplitsAI [⟨2, 4⟩] 6) = true ∧
     lastEndOf (validateSplitsAI [⟨2, 4⟩] 6) = some 6) :=
  ⟨by decide, validateSplitsAI_chain_invariants [⟨2, 4⟩] 6 (by decide)⟩

/-- C1 counterexample: the output of `validateSplits` is *not* always a
tiling of `[1, N]`.  A single candidate `[3,5]` with `N = 5` is returned
unchanged, leaving pages 1–2 uncovered (first start page is 3, not 1);
two candidates `[1,2]`, `[5,6]` with `N = 6` are returned unchanged,
leaving the interior gap 3–4 (`endPage + 1 = 3 ≠ 5 = next startPage`). -/
theorem validateSplitsAI_not_claimTiling :
    validateSplitsAI [⟨3, 5⟩] 5 = [⟨3, 5⟩] ∧
    isClaimTiling 5 (validateSplitsAI [⟨3, 5⟩] 5) = false ∧
    validateSplitsAI [⟨1, 2⟩, ⟨5, 6⟩] 6 = [⟨1, 2⟩, ⟨5, 6⟩] ∧
    isClaimTiling 6 (validateSplitsAI [⟨1, 2⟩, ⟨5, 6⟩] 6) = false := by
  decide

/-! ### C2 — idempotence on valid tilings -/

/-- The stable sort leaves an already-sorted list unchanged. -/
theorem sortSpans_of_sorted :
    ∀ (l : List Span), sortedByStart l = true → sortSpans l = l
  | [] => fun _ => rfl
  | [x] => fun _ => rfl
  | x :: y :: rest => by
      intro h
      simp only [sortedByStart, Bool.and_eq_true, decide_eq_true_eq] at h
      have ih := sortSpans_of_sorted (y :: rest) h.2
      calc sortSpans (x :: y :: rest)
          = insertSpan x (sortSpans (y :: rest)) := rfl
        _ = insertSpan x (y :: rest) := by rw [ih]
        _ = x :: y :: rest := by
            simp only [insertSpan]
            rw [if_neg (not_lt.mpr h.1)]

/-- The conjunctive tiling property implies the cursor-anchored recursive
form. -/
theorem tilesFrom_of_parts :
    ∀ (l : List Span) (c N : Int),
      headStartIs c l = true → allStartLeEnd l = true → contiguous l = true →
      lastEndOf l = some N → tilesFrom c N l = true
  | [], c, N => by simp [headStartIs]
  | [s], c, N => by
      intro h1 h2 h3 h4
      simp only [headStartIs, decide_eq_true_eq] at h1
      simp only [allStartLeEnd, List.all_cons, List.all_nil, Bool.and_true,
        decide_eq_true_eq] at h2
      simp only [lastEndOf, Option.some.injEq] at h4
      simp only [tilesFrom, Bool.and_eq_true, decide_eq_true_eq]
      omega
  | s :: t :: rest, c, N => by
      intro h1 h2 h3 h4
      simp only [headStartIs, decide_eq_true_eq] at h1
      simp only [allStartLeEnd, List.all_cons, Bool.and_eq_true,
        decide_eq_true_eq] at h2
      simp only [contiguous, Bool.and_eq_true, decide_eq_true_eq] at h3
      simp only [lastEndOf] at h4
      have ih := tilesFrom_of_parts (t :: rest) (s.endPage + 1) N
        (by simp [headStartIs, h3.1.symm])
        (by simp only [allStartLeEnd, List.all_cons, Bool.and_eq_true,
              decide_eq_true_eq]
            exact h2.2)
        h3.2 h4
      simp only [tilesFrom, Bool.and_eq_true, decide_eq_true_eq]
      exact ⟨⟨h1, h2.1⟩, ih⟩

/-- A tiling anchored at `c` and closing at `N` satisfies `c ≤ N`. -/
theorem tilesFrom_le :
    ∀ (l : List Span) (c N : Int), tilesFrom c N l = true → c ≤ N
  | [], c, N => by simp [tilesFrom]
  | [s], c, N => by
      simp only [tilesFrom, Bool.and_eq_true, decide_eq_true_eq]
      omega
  | s :: t :: rest, c, N => by
      intro h
      simp only [tilesFrom, Bool.and_eq_true, decide_eq_true_eq] at h
      have := tilesFrom_le (t :: rest) (s.endPage + 1) N h.2
      omega

/-- One exact step of the walk: a candidate starting exactly at the
cursor and already inside the page range is emitted unchanged. -/
theorem clampWalk_cons_exact (N : Int) (s : Span) (rest : List Span) (c : Int)
    (h1 : s.startPage = c) (h2 : s.startPage ≤ s.endPage) (h3 : s.endPage ≤ N) :
    clampWalk N (s :: rest) c =
      (s :: (clampWalk N rest (s.endPage + 1)).1,
       (clampWalk N rest (s.endPage + 1)).2) := by
  have hstart : max s.startPage c = s.startPage := by omega
  simp only [clampWalk]
  rw [hstart, min_eq_left h3, max_eq_left h2, if_pos (h2.trans h3)]

/-- On a perfect tiling the walk re-emits every span unchanged and ends
with the cursor at `N + 1`. -/
theorem clampWalk_of_tilesFrom :
    ∀ (l : List Span) (c N : Int),
      tilesFrom c N l = true → clampWalk N l c = (l, N + 1)
  | [], c, N => by simp [tilesFrom]
  | [s], c, N => by
      intro h
      simp only [tilesFrom, Bool.and_eq_true, decide_eq_true_eq] at h
      obtain ⟨⟨h1, h2⟩, h3⟩ := h
      rw [clampWalk_cons_exact N s [] c h1 h2 (le_of_eq h3)]
      simp [clampWalk, h3]
  | s :: t :: rest, c, N => by
      intro h
      simp only [tilesFrom, Bool.and_eq_true, decide_eq_true_eq] at h
      obtain ⟨⟨h1, h2⟩, htail⟩ := h
      have hEndLt : s.endPage + 1 ≤ N := tilesFrom_le (t :: rest) (s.endPage + 1) N htail
      have ih := clampWalk_of_tilesFrom (t :: rest) (s.endPage + 1) N htail
      rw [clampWalk_cons_exact N s (t :: rest) c h1 h2 (by omega)]
      rw [ih]

/-- C2 (confirmed): reconciling a list that already forms a valid tiling
of `[1, N]` — sorted ascending by start page, first start page 1,
contiguous, non-empty spans, last end page `N` — returns it unchanged. -/
theorem validateSplitsAI_idempotent (l : List Span) (N : Int)
    (h : isClaimTiling N l = true) : validateSplitsAI l N = l := by
  simp only [isClaimTiling, Bool.and_eq_true, beq_iff_eq] at h
  obtain ⟨⟨⟨⟨hsort, hhead⟩, hlast⟩, hle⟩, hcont⟩ := h
  have htiles : tilesFrom 1 N l = true := tilesFrom_of_parts l 1 N hhead hle hcont hlast
  have hne : l ≠ [] := by
    intro hnil
    rw [hnil] at htiles
    simp [tilesFrom] at htiles
  unfold validateSplitsAI
  rw [if_neg (by simpa [List.isEmpty_iff] using hne)]
  rw [sortSpans_of_sorted l hsort, clampWalk_of_tilesFrom l 1 N htiles]
  simp

/-- Witness for `validateSplitsAI_idempotent` at the concrete tiling
`[⟨1,2⟩, ⟨3,3⟩]` of `[1,3]`. -/
theorem validateSplitsAI_idempotent_witness :
    isClaimTiling 3 [⟨1, 2⟩, ⟨3, 3⟩] = true ∧
    validateSplitsAI [⟨1, 2⟩, ⟨3, 3⟩] 3 = [⟨1, 2⟩, ⟨3, 3⟩] :=
  ⟨by decide, validateSplitsAI_idempotent [⟨1, 2⟩, ⟨3, 3⟩] 3 (by decide)⟩

/-! ### C10 — the two implementations agree on ranges -/

/-- C10 (confirmed): for every candidate list and every `N ≥ 1` the AI
service's `validateSplits` and the PDF splitter's `validateSplits`
produce the same sequence of `(startPage, endPage)` ranges.  (They differ
only in attached metadata: the fallback span's `confidence` is 0.3
vs. 0.5, ids are `invoice_i` vs. `split_i`, and the AI service sorts its
input array in place while the splitter sorts a copy.) -/
theorem validateSplits_implementations_agree (splits : List Span) (N : Int)
    (hN : 1 ≤ N) : validateSplitsAI splits N = validateSplitsPDF splits N := by
  unfold validateSplitsAI validateSplitsPDF
  by_cases hemp : splits.isEmpty
  · rw [if_pos hemp]
    rw [List.isEmpty_iff.mp hemp]
    simp [sortSpans, clampWalk, hN]
  · rw [if_neg hemp]
    by_cases hcur : (clampWalk N (sortSpans splits) 1).2 ≤ N
    · rw [if_pos hcur, if_pos hcur]
      by_cases hnil : (clampWalk N (sortSpans splits) 1).1.isEmpty
      · rw [if_pos hnil, if_pos hnil]
        rw [clampWalk_snd_of_fst_nil N (sortSpans splits) 1 (List.isEmpty_iff.mp hnil)]
      · rw [if_neg hnil, if_neg hnil]
    · rw [if_neg hcur, if_neg hcur]

/-- Witness for `validateSplits_implementations_agree` at the concrete
input `[⟨2,3⟩]`, `N = 4`. -/
theorem validateSplits_implementations_agree_witness :
    (1 : Int) ≤ 4 ∧ validateSplitsAI [⟨2, 3⟩] 4 = validateSplitsPDF [⟨2, 3⟩] 4 :=
  ⟨by decide, validateSplits_implementations_agree [⟨2, 3⟩] 4 (by decide)⟩

/-! ## JavaScript values and the numeric normalizer

`parseNumericValue` (`processing.controller.js`, lines 893–922) receives
arbitrary JSON-shaped values.  The inputs relevant to its behaviour are
`null`/`undefined`, strings, and numbers; they are modelled by `JVal`
with numbers as exact rationals. -/
inductive JVal where
  | null : JVal
  | str : String → JVal
  | num : ℚ → JVal
  deriving DecidableEq, Repr

/-- JavaScript truthiness of a `JVal`: `null`/`undefined`, the empty
string and `0` are falsy, everything else is truthy. -/
def JVal.truthy : JVal → Bool
  | .null => false
  | .str s => !s.isEmpty
  | .num q => decide (q ≠ 0)

/-- JavaScript `a || b` on values. -/
def jsOr (a b : JVal) : JVal := if a.truthy then a else b

/-- The whitespace characters of the JavaScript `\s` class that can
occur in the inputs at hand (space, tab, newline, carriage return,
vertical tab, form feed, no-break space); further Unicode space
code points behave identically and are omitted. -/
def jsWhitespace (c : Char) : Bool :=
  c == ' ' || c == '\t' || c == '\n' || c == '\r' ||
  c == '\x0B' || c == '\x0C' || c == ' '

/-- `String.prototype.trim()`. -/
def jsTrim (l : List Char) : List Char :=
  ((l.dropWhile jsWhitespace).reverse.dropWhile jsWhitespace).reverse

/-- Case-insensitive match of one alternation token against a prefix of
the input; returns the remainder on success. -/
def matchToken : List Char → List Char → Option (List Char)
  | [], l => some l
  | _ :: _, [] => none
  | t :: ts, c :: cs => if c.toUpper = t then matchToken ts cs else none

/-- First token of the alternation that matches, in the order written in
the regex `(CHF|EUR|USD|GBP|JPY|CNY|€|\$|£)`. -/
def tryTokens : List (List Char) → List Char → Option (List Char)
  | [], _ => none
  | t :: ts, l =>
      match matchToken t l with
      | some r => some r
      | none => tryTokens ts l

/-- The alternation tokens of the currency-stripping regex, uppercase
(the match is case-insensitive). -/
def currencyTokens : List (List Char) :=
  [['C','H','F'], ['E','U','R'], ['U','S','D'], ['G','B','P'],
   ['J','P','Y'], ['C','N','Y'], ['€'], ['$'], ['£']]

theorem matchToken_length :
    ∀ (t l r : List Char), matchToken t l = some r → r.length + t.length = l.length
  | [], l, r => by
      simp only [matchToken, Option.some.injEq]
      rintro rfl
      simp
  | _ :: _, [], r => by simp [matchToken]
  | t :: ts, c :: cs, r => by
      simp only [matchToken]
      split
      · intro h
        have := matchToken_length ts cs r h
        simp only [List.length_cons]
        omega
      · intro h
        simp at h

theorem tryTokens_length :
    ∀ (ts : List (List Char)) (l r : List Char),
      (∀ t ∈ ts, t ≠ []) → tryTokens ts l = some r → r.length < l.length
  | [], l, r => by simp [tryTokens]
  | t :: ts, l, r => by
      intro hne
      simp only [tryTokens]
      split
      · next heq =>
        intro h
        obtain rfl : r = _ := by simpa using h.symm
        have hlen := matchToken_length t l r heq
        have ht : t ≠ [] := hne t (by simp)
        have : 0 < t.length := List.length_pos.mpr ht
        omega
      · intro h
        exact tryTokens_length ts l r (fun u hu => hne u (by simp [hu])) h

/-- Global replace of `/(CHF|EUR|USD|GBP|JPY|CNY|€|\$|£)\s*/gi` by the
empty string: scan left to right; at each position, if an alternation
token matches, drop it together with the greedy run of whitespace that
follows and resume after it, otherwise keep the character and move on.
The structural `fuel` argument only bounds the recursion depth: every
step consumes at least one input character (tokens are nonempty), so
with `fuel ≥ l.length` the zero-fuel branch is unreachable —
`stripCurrencyAux_fuel_irrelevant` makes this precise. -/
def stripCurrencyAux : Nat → List Char → List Char
  | _, [] => []
  | 0, l => l
  | fuel + 1, c :: cs =>
      match tryTokens currencyTokens (c :: cs) with
      | some rest => stripCurrencyAux fuel (rest.dropWhile jsWhitespace)
      | none => c :: stripCurrencyAux fuel cs

theorem stripCurrencyAux_nil (fuel : Nat) : stripCurrencyAux fuel [] = [] := by
  cases fuel <;> rfl

/-- Any fuel bound of at least the input length yields the same result:
the fuel is an artefact of the embedding, not part of the semantics. -/
theorem stripCurrencyAux_fuel_irrelevant (n : Nat) :
    ∀ (l : List Char) (fuel fuel' : Nat),
      l.length ≤ n → l.length ≤ fuel → l.length ≤ fuel' →
      stripCurrencyAux fuel l = stripCurrencyAux fuel' l := by
  induction n with
  | zero =>
      intro l fuel fuel' hn _ _
      have : l = [] := List.length_eq_zero.mp (Nat.le_zero.mp hn)
      subst this
      rw [stripCurrencyAux_nil, stripCurrencyAux_nil]
  | succ n ihn =>
      intro l fuel fuel' hn hf hf'
      match l with
      | [] => rw [stripCurrencyAux_nil, stripCurrencyAux_nil]
      | c :: cs =>
        simp only [List.length_cons] at hn hf hf'
        obtain ⟨f, rfl⟩ : ∃ f, fuel = f + 1 := ⟨fuel - 1, by omega⟩
        obtain ⟨f', rfl⟩ : ∃ f', fuel' = f' + 1 := ⟨fuel' - 1, by omega⟩
        simp only [stripCurrencyAux]
        cases htok : tryTokens currencyTokens (c :: cs) with
        | none =>
            simp only []
            congr 1
            exact ihn cs f f' (by omega) (by omega) (by omega)
        | some rest =>
            have hlt := tryTokens_length currencyTokens (c :: cs) rest (by decide) htok
            have hle : (rest.dropWhile jsWhitespace).length ≤ rest.length :=
              (List.dropWhile_sublist jsWhitespace).length_le
            simp only [List.length_cons] at hlt
            exact ihn (rest.dropWhile jsWhitespace) f f' (by omega) (by omega) (by omega)

/-- The currency-stripping pass, run with sufficient fuel. -/
def stripCurrency (l : List Char) : List Char :=
  stripCurrencyAux l.length l

/-- The keep-filter `replace(/[^0-9,.'\-\s]/g, '')`: keep digits, comma,
dot, apostrophe, minus and whitespace. -/
def keepNumericChars (l : List Char) : List Char :=
  l.filter fun c =>
    c.isDigit || c == ',' || c == '.' || c == '\'' || c == '-' || jsWhitespace c

/-- `replace(/[\s']/g, '')`: remove whitespace and apostrophe thousands
markers. -/
def removeSpaceApos (l : List Char) : List Char :=
  l.filter fun c => !(jsWhitespace c || c == '\'')

/-- `,` or `.`, the two candidate decimal separators. -/
def isSepChar (c : Char) : Bool := c == ',' || c == '.'

/-- Split at the last occurrence of `,` or `.`
(`Math.max(s.lastIndexOf(','), s.lastIndexOf('.'))`): returns the part
before the last separator and the part after it, or `none` when neither
separator occurs. -/
def splitAtLastSep (l : List Char) : Option (List Char × List Char) :=
  let rev := l.reverse
  let afterRev := rev.takeWhile fun c => !isSepChar c
  match rev.dropWhile (fun c => !isSepChar c) with
  | [] => none
  | _ :: beforeRev => some (beforeRev.reverse, afterRev.reverse)

/-- `replace(/[.,]/g, '')` on the integer part. -/
def stripSeps (l : List Char) : List Char := l.filter fun c => !isSepChar c

/-- Decimal digit run to a natural number. -/
def digitsToNat (l : List Char) : Nat :=
  l.foldl (fun n c => n * 10 + (c.toNat - '0'.toNat)) 0

/-- Unsigned part of JavaScript `parseFloat`: a digit run, optionally
followed by `.` and a fractional digit run, parsed greedily; everything
after the first character that does not continue the literal is ignored;
`none` (NaN) when no digit is read.  Exponent suffixes cannot occur in
the already-filtered inputs and the value is modelled exactly (no
float-overflow to Infinity). -/
def parsePosFloat (l : List Char) : Option ℚ :=
  let ip := l.takeWhile Char.isDigit
  match l.dropWhile Char.isDigit with
  | '.' :: rest2 =>
      let fp := rest2.takeWhile Char.isDigit
      if ip.isEmpty && fp.isEmpty then none
      else some (mkRat (digitsToNat ip * 10 ^ fp.length + digitsToNat fp) (10 ^ fp.length))
  | _ => if ip.isEmpty then none else some (mkRat (digitsToNat ip) 1)

/-- JavaScript `parseFloat` with an optional leading sign. -/
def parseFloatQ : List Char → Option ℚ
  | '-' :: rest => (parsePosFloat rest).map fun q => -q
  | '+' :: rest => parsePosFloat rest
  | l => parsePosFloat l

/-- `parseNumericValue` (`processing.controller.js`): `0` for
`null`/`undefined` and the empty string; finite numbers pass through;
strings are trimmed, stripped of currency tokens, filtered to the
numeric alphabet, stripped of whitespace/apostrophe thousands markers,
split at the last `,`/`.` (the decimal separator — earlier separators
are thousands groupings and are removed), and parsed as a float, with
`0` for an unparseable remainder. -/
def parseNumericValue : JVal → ℚ
  | .null => 0
  | .num q => q
  | .str s =>
      if s = "" then 0
      else
        let l3 := removeSpaceApos (keepNumericChars (stripCurrency (jsTrim s.data)))
        let l4 :=
          match splitAtLastSep l3 with
          | some (before, after) => stripSeps before ++ '.' :: after
          | none => l3.filter fun c => c.isDigit || c == '-'
        match parseFloatQ l4 with
        | some q => q
        | none => 0

/-- C3 (confirmed): `parseNumericValue` is total — every input yields a
number, `0` for `null`, the empty string and unparseable strings — and
resolves the decimal separator as the last `,`/`.` of the cleaned
string; in particular `"2,378.02" ↦ 2378.02`, `"6 834,99" ↦ 6834.99`,
and currency tokens and apostrophe thousands separators are stripped
(`"CHF 1'234.50" ↦ 1234.5`). -/
theorem parseNumericValue_spec :
    parseNumericValue (.str "2,378.02") = 2378.02 ∧
    parseNumericValue (.str "6 834,99") = 6834.99 ∧
    parseNumericValue (.str "") = 0 ∧
    parseNumericValue .null = 0 ∧
    parseNumericValue (.str "CHF 1'234.50") = 1234.5 ∧
    parseNumericValue (.str "no number here") = 0 := by
  have h1 : (2378.02 : ℚ) = mkRat 237802 100 := by
    rw [Rat.mkRat_eq_divInt]
    norm_num [Rat.divInt_eq_div]
  have h2 : (6834.99 : ℚ) = mkRat 683499 100 := by
    rw [Rat.mkRat_eq_divInt]
    norm_num [Rat.divInt_eq_div]
  have h3 : (1234.5 : ℚ) = mkRat 123450 100 := by
    rw [Rat.mkRat_eq_divInt]
    norm_num [Rat.divInt_eq_div]
  refine ⟨?_, ?_, by decide, by decide, ?_, by decide⟩
  · rw [h1]; decide
  · rw [h2]; decide
  · rw [h3]; decide

/-! ## Executable rational arithmetic

Batteries marks `Rat.mul`, `Rat.add`, `Rat.inv` and `Rat.ofScientific`
`@[irreducible]`, which blocks kernel evaluation of concrete witnesses.
The helpers below compute the same values through the reducible
`Rat.divInt` / `mkRat` normalisation path; the `_eq` lemmas prove they
agree with the standard operations. -/

def ratMul (a b : ℚ) : ℚ := Rat.divInt (a.num * b.num) ((a.den : Int) * (b.den : Int))

theorem ratMul_eq (a b : ℚ) : ratMul a b = a * b := by
  rw [ratMul, ← Rat.divInt_mul_divInt', Rat.num_divInt_den, Rat.num_divInt_den]

def ratInv (b : ℚ) : ℚ := Rat.divInt (b.den : Int) b.num

theorem ratInv_eq (b : ℚ) : ratInv b = b⁻¹ := by
  rw [ratInv, Rat.inv_def']

def ratDiv (a b : ℚ) : ℚ := ratMul a (ratInv b)

theorem ratDiv_eq (a b : ℚ) : ratDiv a b = a / b := by
  rw [ratDiv, ratMul_eq, ratInv_eq, div_eq_mul_inv]

def ratAdd (a b : ℚ) : ℚ :=
  Rat.divInt (a.num * (b.den : Int) + b.num * (a.den : Int)) ((a.den : Int) * (b.den : Int))

theorem ratAdd_eq (a b : ℚ) : ratAdd a b = a + b := by
  have ha : (a.den : Int) ≠ 0 := Int.natCast_ne_zero.mpr a.den_nz
  have hb : (b.den : Int) ≠ 0 := Int.natCast_ne_zero.mpr b.den_nz
  rw [ratAdd, ← Rat.divInt_add_divInt _ _ ha hb, Rat.num_divInt_den, Rat.num_divInt_den]

/-- `Number(x.toFixed(2))`: round to two decimals.  `toFixed` picks the
closest value with two decimal digits and, at a tie, the larger one, so
this is `⌊x·100 + 1/2⌋ / 100`. -/
def toFixed2 (q : ℚ) : ℚ := mkRat (Rat.floor (ratAdd (ratMul q 100) (mkRat 1 2))) 100

theorem toFixed2_eq_round (q : ℚ) : toFixed2 q = mkRat (round (q * 100)) 100 := by
  rw [toFixed2, ratAdd_eq, ratMul_eq, round_eq]
  congr 1
  rw [show (mkRat 1 2 : ℚ) = 1 / 2 by
    rw [Rat.mkRat_eq_divInt, Rat.divInt_eq_div]; norm_num]
  exact (Rat.floor_def' _).trans Rat.floor_def.symm

/-! ## Line items and the unit-price guardrail

`normalizeItemsNumbers` (`processing.controller.js`, lines 861–888).
The raw item fields can be strings, numbers or `null`/absent; the
alternative key spellings consulted by the code (`line_total`, `Amount`,
`UnitPrice`) are carried explicitly. -/
structure RawItem where
  quantity : JVal
  total_price_ht : JVal
  line_total : JVal
  Amount : JVal
  unit_price : JVal
  UnitPrice : JVal
  net_weight : Option JVal
  net_gold_weight : Option JVal
  net_platine_weight : Option JVal
  discount : Option JVal
  deriving DecidableEq, Repr

/-- An item after `normalizeItemsNumbers`: `quantity`, `total_price_ht`
and `unit_price` hold parsed numbers, the alias fields are untouched,
and the optional weight/discount fields are sanitised. -/
structure NormItem where
  quantity : ℚ
  total_price_ht : ℚ
  unit_price : ℚ
  line_total : JVal
  Amount : JVal
  UnitPrice : JVal
  net_weight : Option JVal
  net_gold_weight : Option JVal
  net_platine_weight : Option JVal
  discount : Option JVal
  deriving DecidableEq, Repr

/-- `if (item.f != null) item.f = parseNumericValue(item.f)`: absent
(`undefined`) and `null` fields are left alone, anything else is
replaced by its parsed number. -/
def sanitizeNumField : Option JVal → Option JVal
  | none => none
  | some JVal.null => some JVal.null
  | some v => some (JVal.num (parseNumericValue v))

/-- `item.total_price_ht || item.line_total || item.Amount`. -/
def itemTotalRaw (it : RawItem) : JVal := jsOr it.total_price_ht (jsOr it.line_total it.Amount)

/-- `item.unit_price || item.UnitPrice`. -/
def itemUnitRaw (it : RawItem) : JVal := jsOr it.unit_price it.UnitPrice

/-- One item of `normalizeItemsNumbers`: parse the three numeric fields,
and when all are positive and the ratio `(unitPrice·quantity)/total`
falls outside `[0.02, 50]`, replace `unit_price` by `total/quantity`
rounded to two decimals.  (The JavaScript also guards `!isFinite(ratio)`;
with `total > 0` from the surrounding condition the ratio is always
finite, so that disjunct is vacuous in the exact model.) -/
def normalizeItem (it : RawItem) : NormItem :=
  let q := parseNumericValue it.quantity
  let total := parseNumericValue (itemTotalRaw it)
  let up := parseNumericValue (itemUnitRaw it)
  let up2 :=
    if 0 < q ∧ 0 < total ∧ 0 < up then
      let ratio := ratDiv (ratMul up q) total
      if 50 < ratio ∨ ratio < mkRat 2 100 then toFixed2 (ratDiv total q) else up
    else up
  { quantity := q, total_price_ht := total, unit_price := up2,
    line_total := it.line_total, Amount := it.Amount, UnitPrice := it.UnitPrice,
    net_weight := sanitizeNumField it.net_weight,
    net_gold_weight := sanitizeNumField it.net_gold_weight,
    net_platine_weight := sanitizeNumField it.net_platine_weight,
    discount := sanitizeNumField it.discount }

/-- `normalizeItemsNumbers` maps the per-item normalisation over the list. -/
def normalizeItemsNumbers (items : List RawItem) : List NormItem :=
  items.map normalizeItem

/-- C5 (confirmed): for every line item whose parsed quantity, total and
unit price are all positive, the normalizer overwrites `unit_price`
with `total/quantity` rounded to two decimals exactly when the ratio
`(unitPrice·quantity)/total` exceeds 50 or falls below 0.02, and leaves
it unchanged otherwise; `quantity` and `total_price_ht` always hold the
parsed values. -/
theorem normalizeItemsNumbers_guardrail (it : RawItem)
    (hq : 0 < parseNumericValue it.quantity)
    (ht : 0 < parseNumericValue (itemTotalRaw it))
    (hu : 0 < parseNumericValue (itemUnitRaw it)) :
    (normalizeItem it).unit_price =
      (if 50 < ratDiv (ratMul (parseNumericValue (itemUnitRaw it))
                              (parseNumericValue it.quantity))
                      (parseNumericValue (itemTotalRaw it)) ∨
          ratDiv (ratMul (parseNumericValue (itemUnitRaw it))
                         (parseNumericValue it.quantity))
                 (parseNumericValue (itemTotalRaw it)) < mkRat 2 100
       then toFixed2 (ratDiv (parseNumericValue (itemTotalRaw it))
                             (parseNumericValue it.quantity))
       else parseNumericValue (itemUnitRaw it)) ∧
    (normalizeItem it).quantity = parseNumericValue it.quantity ∧
    (normalizeItem it).total_price_ht = parseNumericValue (itemTotalRaw it) := by
  refine ⟨?_, rfl, rfl⟩
  show (if 0 < parseNumericValue it.quantity ∧
           0 < parseNumericValue (itemTotalRaw it) ∧
           0 < parseNumericValue (itemUnitRaw it) then _ else _) = _
  rw [if_pos ⟨hq, ht, hu⟩]

/-- The claim's corrected example: `{quantity: 10, totalAmount: 100,
unitPrice: 5000}` (ratio 500). -/
def guardrailItemHigh : RawItem :=
  { quantity := .num 10, total_price_ht := .num 100, line_total := .null,
    Amount := .null, unit_price := .num 5000, UnitPrice := .null,
    net_weight := none, net_gold_weight := none, net_platine_weight := none,
    discount := none }

/-- The claim's unchanged example: `{quantity: 2, totalAmount: 50,
unitPrice: 25}` (ratio 1). -/
def guardrailItemOk : RawItem :=
  { quantity := .num 2, total_price_ht := .num 50, line_total := .null,
    Amount := .null, unit_price := .num 25, UnitPrice := .null,
    net_weight := none, net_gold_weight := none, net_platine_weight := none,
    discount := none }

/-- Witness for `normalizeItemsNumbers_guardrail` at the claim's two
examples: the ratio-500 item is corrected to unit price 10, the ratio-1
item keeps unit price 25. -/
theorem normalizeItemsNumbers_guardrail_witness :
    0 < parseNumericValue guardrailItemHigh.quantity ∧
    0 < parseNumericValue (itemTotalRaw guardrailItemHigh) ∧
    0 < parseNumericValue (itemUnitRaw guardrailItemHigh) ∧
    (normalizeItemsNumbers [guardrailItemHigh, guardrailItemOk]).map NormItem.unit_price
      = [10, 25] := by
  refine ⟨by decide, by decide, by decide, ?_⟩
  have h := normalizeItemsNumbers_guardrail guardrailItemHigh
    (by decide) (by decide) (by decide)
  show [(normalizeItem guardrailItemHigh).unit_price,
        (normalizeItem guardrailItemOk).unit_price] = [10, 25]
  rw [h.1]
  decide

/-! ## Deriving `amountDue` in the record normalizer

The `amountDue` block of `normalizeInvoice`
(`extractFromLayout.js`, lines 80–91).  The preceding per-section maps
(dates via `toISODate`, currencies via `normCurrency`, countries via the
external i18n country tables) rewrite other fields of the same records
and never touch `amountDue` or the line items' `totalAmount`, so the
derivation is modelled on the totals/line-item projections it reads.
The returned flag is `diagnostics.computed.amountDue`. -/
structure TotalsEntry where
  amountDue : Option ℚ
  deriving DecidableEq, Repr

structure ExtractLineItem where
  totalAmount : Option ℚ
  deriving DecidableEq, Repr

/-- `Number(it.totalAmount) || 0`: an absent amount contributes 0. -/
def itemAmount (it : ExtractLineItem) : ℚ :=
  match it.totalAmount with
  | some q => q
  | none => 0

/-- `lineItems.reduce((acc, it) => acc + (Number(it.totalAmount) || 0), 0)`. -/
def itemsSum (items : List ExtractLineItem) : ℚ :=
  items.foldl (fun acc it => ratAdd acc (itemAmount it)) 0

/-- The `amountDue` derivation: only when a totals entry exists, its
`amountDue` is `null`/`undefined`, `lineItems` is an array, and the sum
of the items' `totalAmount` is strictly positive is `amountDue` set to
the 2-decimal rounded sum and flagged as computed. -/
def deriveAmountDue (totals : List TotalsEntry)
    (lineItems : Option (List ExtractLineItem)) : List TotalsEntry × Bool :=
  match totals with
  | [] => ([], false)
  | t :: rest =>
      match t.amountDue, lineItems with
      | none, some items =>
          if 0 < itemsSum items then
            ({ amountDue := some (toFixed2 (itemsSum items)) } :: rest, true)
          else (t :: rest, false)
      | _, _ => (t :: rest, false)

/-- C6 counterexample: a record with a line item summing to 0 (and one
summing to −5) has `amountDue` absent and line items present, yet the
normalizer neither derives `amountDue` nor marks it computed — the
`sum > 0` guard in the code is missing from the claim. -/
theorem deriveAmountDue_not_always_derived :
    deriveAmountDue [⟨none⟩] (some [⟨some 0⟩]) = ([⟨none⟩], false) ∧
    deriveAmountDue [⟨none⟩] (some [⟨some (-5)⟩]) = ([⟨none⟩], false) := by
  decide

/-- C6 (corrected): when the first totals entry's `amountDue` is absent,
the record has line items, and the items' `totalAmount` sum is strictly
positive, `amountDue` is set to the sum rounded to two decimals and
flagged as computed; when `amountDue` is already present the totals are
returned unchanged and nothing is flagged. -/
theorem deriveAmountDue_spec (t : TotalsEntry) (rest : List TotalsEntry)
    (items : List ExtractLineItem) :
    (t.amountDue = none → 0 < itemsSum items →
       deriveAmountDue (t :: rest) (some items) =
         ({ amountDue := some (toFixed2 (itemsSum items)) } :: rest, true)) ∧
    (∀ x, t.amountDue = some x →
       ∀ li, deriveAmountDue (t :: rest) li = (t :: rest, false)) := by
  constructor
  · intro h1 h2
    simp only [deriveAmountDue]
    rw [h1]
    simp only [if_pos h2]
  · intro x hx li
    simp only [deriveAmountDue]
    rw [hx]

/-- Witness for `deriveAmountDue_spec`: items summing to 5 fill in
`amountDue = 5` and set the computed flag. -/
theorem deriveAmountDue_spec_witness :
    (⟨none⟩ : TotalsEntry).amountDue = none ∧
    0 < itemsSum [⟨some 2⟩, ⟨some 3⟩] ∧
    deriveAmountDue [⟨none⟩] (some [⟨some 2⟩, ⟨some 3⟩]) = ([⟨some 5⟩], true) := by
  refine ⟨rfl, by decide, ?_⟩
  have h := (deriveAmountDue_spec ⟨none⟩ [] [⟨some 2⟩, ⟨some 3⟩]).1 rfl (by decide)
  rw [h]
  decide

/-! ## Parsing the oracle's boundary reply

`parseAIResponse` (`azure-openai.service.js`, lines 352–390).  The
regex probe `/\[[\s\S]*\]/` is embedded as `matchJsonArray`;
`JSON.parse` plus the `Array.isArray` check is a host-language black box
and is passed in as a function `jsonParse` returning `none` when the
parse throws or the value is not an array.  The derived display string
`pageRange` (`` `${startPage}-${endPage}` ``) is not modelled. -/

/-- JavaScript `parseInt` on a string: skip leading whitespace, optional
sign, then a leading run of decimal digits; `none` (NaN) when no digit
is read.  (Hexadecimal prefixes and exponent notation do not occur in
the inputs at hand.) -/
def jsParseIntStr (l : List Char) : Option Int :=
  let parseDigits : List Char → Option Int := fun l2 =>
    let ds := l2.takeWhile Char.isDigit
    if ds.isEmpty then none else some (digitsToNat ds)
  match l.dropWhile jsWhitespace with
  | '-' :: rest => (parseDigits rest).map fun n => -n
  | '+' :: rest => parseDigits rest
  | l2 => parseDigits l2

/-- JavaScript `parseInt(value)`: numbers print in decimal notation and
truncate toward zero; `null` stringifies to `"null"` (NaN). -/
def jsParseInt : JVal → Option Int
  | .null => none
  | .num q => some (q.num.tdiv (q.den : Int))
  | .str s => jsParseIntStr s.data

/-- JavaScript `parseFloat(value)` on a `JVal`. -/
def jsParseFloat : JVal → Option ℚ
  | .null => none
  | .num q => some q
  | .str s => parseFloatQ (s.data.dropWhile jsWhitespace)

/-- `parseInt(v) || dflt`: NaN and 0 both fall back. -/
def parseIntOr (v : JVal) (dflt : Int) : Int :=
  match jsParseInt v with
  | some n => if n = 0 then dflt else n
  | none => dflt

/-- `parseFloat(v) || dflt`: NaN and 0 both fall back. -/
def parseFloatOr (v : JVal) (dflt : ℚ) : ℚ :=
  match jsParseFloat v with
  | some q => if q = 0 then dflt else q
  | none => dflt

/-- One element of the JSON array returned by the oracle, fields raw. -/
structure RawSplit where
  invoiceNumber : JVal
  startPage : JVal
  endPage : JVal
  confidence : JVal
  reasoning : JVal
  deriving DecidableEq, Repr

/-- A candidate span as produced by `parseAIResponse`. -/
structure AISplit where
  id : String
  invoiceNumber : JVal
  startPage : Int
  endPage : Int
  confidence : ℚ
  reasoning : JVal
  deriving DecidableEq, Repr

/-- The regex probe `aiResponse.match(/\[[\s\S]*\]/)`: the greedy match
runs from the first `[` to the last `]`; `none` when no `[` has a
later `]`. -/
def matchJsonArray (l : List Char) : Option (List Char) :=
  match l.dropWhile (fun c => c != '[') with
  | [] => none
  | pre =>
      match pre.reverse.dropWhile (fun c => c != ']') with
      | [] => none
      | sufRev => some sufRev.reverse

/-- The catch-branch fallback: one candidate spanning all pages with
confidence `0.3` (= `mkRat 3 10`). -/
def fallbackSplit (totalPages : Int) : AISplit :=
  { id := "invoice_1", invoiceNumber := .str "Invoice 1", startPage := 1,
    endPage := totalPages, confidence := mkRat 3 10,
    reasoning := .str "Fallback: Could not parse AI response, treating as single invoice" }

/-- The success-branch mapping over parsed array elements:
`startPage: parseInt(split.startPage) || 1`, etc. -/
def mapParsedSplit (index : Nat) (split : RawSplit) : AISplit :=
  { id := "invoice_" ++ toString (index + 1),
    invoiceNumber :=
      if split.invoiceNumber.truthy then split.invoiceNumber
      else .str ("Invoice " ++ toString (index + 1)),
    startPage := parseIntOr split.startPage 1,
    endPage := parseIntOr split.endPage 1,
    confidence := parseFloatOr split.confidence (mkRat 1 2),
    reasoning :=
      if split.reasoning.truthy then split.reasoning
      else .str "AI detected invoice pattern" }

/-- `parseAIResponse`: extract the bracketed substring, hand it to the
JSON parser, and map the elements on success.  A missing bracket match
and a failing `JSON.parse`/`Array.isArray` both throw into the same
`catch`, which returns the single full-range low-confidence fallback
candidate — hence the two failure sites combine into one `bind`. -/
def parseAIResponse (jsonParse : String → Option (List RawSplit))
    (aiResponse : String) (totalPages : Int) : List AISplit :=
  match (matchJsonArray aiResponse.data).bind (fun sub => jsonParse (String.mk sub)) with
  | none => [fallbackSplit totalPages]
  | some parsedSplits => parsedSplits.mapIdx mapParsedSplit

/-- Page range of a candidate. -/
def spanOfAISplit (s : AISplit) : Span := ⟨s.startPage, s.endPage⟩

/-- Reconciling the single full-range span returns it unchanged. -/
theorem validateSplitsAI_single (N : Int) (hN : 1 ≤ N) :
    validateSplitsAI [⟨1, N⟩] N = [⟨1, N⟩] := by
  have htiles : tilesFrom 1 N [⟨1, N⟩] = true := by
    simp [tilesFrom, hN]
  have hw := clampWalk_of_tilesFrom [⟨1, N⟩] 1 N htiles
  unfold validateSplitsAI
  rw [show sortSpans [(⟨1, N⟩ : Span)] = [⟨1, N⟩] from rfl, hw]
  rw [if_neg (by simp : ¬ (([(⟨1, N⟩ : Span)] : List Span).isEmpty = true))]
  have hlt : ¬ (N + 1 ≤ N) := by omega
  simp [hlt]

/-- C7 (confirmed): whenever no JSON array can be extracted from the
oracle's reply — no bracketed substring, or the JSON parse
fails/returns a non-array — `parseAIResponse` yields exactly the single
fallback candidate `[1, N]` with confidence `0.3`, and the reconciler
maps it to the single validated span `[1, N]`. -/
theorem parseAIResponse_fallback (jsonParse : String → Option (List RawSplit))
    (resp : String) (N : Int) (hN : 1 ≤ N)
    (hfail : (matchJsonArray resp.data).bind (fun sub => jsonParse (String.mk sub)) = none) :
    parseAIResponse jsonParse resp N = [fallbackSplit N] ∧
    (fallbackSplit N).confidence = mkRat 3 10 ∧
    validateSplitsAI ((parseAIResponse jsonParse resp N).map spanOfAISplit) N
      = [⟨1, N⟩] := by
  have hout : parseAIResponse jsonParse resp N = [fallbackSplit N] := by
    unfold parseAIResponse
    rw [hfail]
  refine ⟨hout, rfl, ?_⟩
  rw [hout]
  exact validateSplitsAI_single N hN

/-- Witness for `parseAIResponse_fallback` on a concrete bracketless
reply with `N = 4` and a JSON parser that rejects everything. -/
theorem parseAIResponse_fallback_witness :
    parseAIResponse (fun _ => none) "The bundle has two invoices." 4 = [fallbackSplit 4] ∧
    validateSplitsAI
        ((parseAIResponse (fun _ => none) "The bundle has two invoices." 4).map spanOfAISplit) 4
      = [⟨1, 4⟩] := by
  have h := parseAIResponse_fallback (fun _ => none) "The bundle has two invoices." 4
    (by decide) (by decide)
  exact ⟨h.1, h.2.2⟩

/-! ## Date normalisation — `toISODate`

`toISODate` (`extractFromLayout.js`, lines 13–24) loops over six
format strings calling `dayjs(s, fmt, true)` and falls back to
`dayjs(s)`.  The repository never registers dayjs's
`customParseFormat` plugin (no `dayjs.extend(customParseFormat)`
anywhere), and in dayjs the format and strict arguments are read only
by that plugin: without it `dayjs(s, fmt, true)` puts the extra
arguments in an ignored config field and parses `s` exactly like
`dayjs(s)`.  Every loop iteration therefore performs the same default
parse: first dayjs's built-in regex, which only matches strings that
*start with a four-digit year* (four digits, then optional dash or slash, month, dash or slash, day),
then the JavaScript engine's `new Date(string)` fallback, which (V8)
reads fully numeric triples month-first and yields Invalid Date when
the first component exceeds 12.

The model is restricted to the relevant input class: date-only strings,
in-range components (dayjs's out-of-range rollover, two-digit-year
windowing and time-of-day suffixes are not modelled). -/
structure YMD where
  year : Nat
  month : Nat
  day : Nat
  deriving DecidableEq, Repr

/-- Take exactly `n` leading digits. -/
def takeDigits : Nat → List Char → Option (List Char × List Char)
  | 0, l => some ([], l)
  | _ + 1, [] => none
  | n + 1, c :: cs =>
      if c.isDigit then (takeDigits n cs).map fun p => (c :: p.1, p.2)
      else none

/-- Greedy `(\d{1,2})?` / `(\d{0,2})`: up to two leading digits. -/
def takeUpTo2Digits : List Char → List Char × List Char
  | [] => ([], [])
  | c :: cs =>
      if c.isDigit then
        match cs with
        | d :: ds => if d.isDigit then ([c, d], ds) else ([c], cs)
        | [] => ([c], [])
      else ([], c :: cs)

/-- An optional dash or slash separator. -/
def dropOptDashSlash : List Char → List Char
  | [] => []
  | c :: cs => if c == '-' || c == '/' then cs else c :: cs

/-- dayjs's built-in parse regex (date part, in-range components):
four-digit year, optional `-`/`/`, optional month (default January),
optional `-`/`/`, optional day (default 1), end of string. -/
def dayjsRegexParse (l : List Char) : Option YMD :=
  match takeDigits 4 l with
  | none => none
  | some (yds, rest1) =>
      let p2 := takeUpTo2Digits (dropOptDashSlash rest1)
      let p3 := takeUpTo2Digits (dropOptDashSlash p2.2)
      if p3.2.isEmpty then
        let m := if p2.1.isEmpty then 1 else digitsToNat p2.1
        let d := if p3.1.isEmpty then 1 else digitsToNat p3.1
        if 1 ≤ m && m ≤ 12 && 1 ≤ d && d ≤ 31 then
          some { year := digitsToNat yds, month := m, day := d }
        else none
      else none

/-- `/`, `.` or `-`, the separators V8's legacy date parser accepts in
numeric dates. -/
def isV8Sep (c : Char) : Bool := c == '/' || c == '.' || c == '-'

/-- V8's `new Date(string)` fallback, restricted to fully numeric
triples `A sep B sep C`: read month-first as month `A`, day `B`,
year `C`; Invalid Date when `A > 12` (or a component is out of
range). -/
def v8FallbackParse (l : List Char) : Option YMD :=
  let ds1 := l.takeWhile Char.isDigit
  match l.dropWhile Char.isDigit with
  | s1 :: rest1 =>
      if isV8Sep s1 && !ds1.isEmpty then
        let ds2 := rest1.takeWhile Char.isDigit
        match rest1.dropWhile Char.isDigit with
        | s2 :: rest2 =>
            if isV8Sep s2 && !ds2.isEmpty then
              let ds3 := rest2.takeWhile Char.isDigit
              if !ds3.isEmpty && (rest2.dropWhile Char.isDigit).isEmpty then
                let a := digitsToNat ds1
                let b := digitsToNat ds2
                if 1 ≤ a && a ≤ 12 && 1 ≤ b && b ≤ 31 then
                  some { year := digitsToNat ds3, month := a, day := b }
                else none
              else none
            else none
        | [] => none
      else none
  | [] => none

/-- The dayjs default parse: built-in regex first, engine fallback
second. -/
def dayjsDefaultParse (l : List Char) : Option YMD :=
  match dayjsRegexParse l with
  | some d => some d
  | none => v8FallbackParse l

def pad2 (n : Nat) : String :=
  if n < 10 then "0" ++ toString n else toString n

def pad4 (n : Nat) : String :=
  if n < 10 then "000" ++ toString n
  else if n < 100 then "00" ++ toString n
  else if n < 1000 then "0" ++ toString n
  else toString n

/-- `format('YYYY-MM-DD')`. -/
def formatYMD (d : YMD) : String :=
  pad4 d.year ++ "-" ++ pad2 d.month ++ "-" ++ pad2 d.day

/-- The six format strings tried by the loop. -/
def toISODateCandidates : List String :=
  ["YYYY-MM-DD", "DD/MM/YYYY", "DD.MM.YYYY", "MM/DD/YYYY", "DD-MM-YYYY", "YYYY/MM/DD"]

/-- `dayjs(s, fmt, true)` with the `customParseFormat` plugin absent:
the format and strict arguments are ignored. -/
def dayjsParseIgnoringFormat (l : List Char) (_fmt : String) : Option YMD :=
  dayjsDefaultParse l

/-- `toISODate`: `undefined` for a falsy input; otherwise try the six
formats in order (each one, plugin-less, performing the same default
parse), then fall back to the permissive `dayjs(s)` — also the default
parse. -/
def toISODate (s : Option String) : Option String :=
  match s with
  | none => none
  | some str =>
      if str = "" then none
      else
        match toISODateCandidates.findSome? (dayjsParseIgnoringFormat str.data) with
        | some d => some (formatYMD d)
        | none => (dayjsDefaultParse str.data).map formatYMD

/-- C4 (code bug): because the `customParseFormat` plugin is never
registered, the day-first examples of the claim do not parse at all —
`toISODate "21.09.2025"` and `toISODate "30/05/2025"` return
`undefined` instead of the claimed ISO dates — while an ISO input and a
*month-first* `09.21.2025` (which no pattern in the intended list
accepts) do parse. -/
theorem toISODate_plugin_missing :
    toISODate (some "21.09.2025") = none ∧
    toISODate (some "30/05/2025") = none ∧
    toISODate (some "2025-09-21") = some "2025-09-21" ∧
    toISODate (some "09.21.2025") = some "2025-09-21" := by
  decide

/-! ## Batch lifecycle guards

The status guards of `startProcessing`, `validateSplits` and
`extractInvoiceData` in `processing.controller.js` (lines 152–160,
361–366 and 436–444).  Each step is modelled on a found batch as the
HTTP status code of the response together with the batch status after
the request: a rejected request answers 400 and leaves the status
untouched, an accepted one answers 200 after writing the new status
(`PROCESSING_SPLIT` immediately; `SPLIT_VALIDATED` after the split
materialisation succeeds; `EXTRACTING_DATA` immediately).  The
`SPLIT_ONLY` kill-switch and the 404 missing-batch path are orthogonal
to the guards and not modelled. -/
inductive BatchStatus where
  | UPLOADED
  | PROCESSING_SPLIT
  | SPLIT_PROPOSED
  | SPLIT_VALIDATED
  | EXTRACTING_DATA
  | DATA_VALIDATION_PENDING
  | PROCESSING_FAILED
  | ERROR
  deriving DecidableEq, Repr

open BatchStatus in
/-- `startProcessing`: allowed from `UPLOADED`, `SPLIT_PROPOSED` and
`PROCESSING_FAILED`; moves to `PROCESSING_SPLIT`. -/
def startProcessingStep (st : BatchStatus) : Nat × BatchStatus :=
  if st = UPLOADED ∨ st = SPLIT_PROPOSED ∨ st = PROCESSING_FAILED
  then (200, PROCESSING_SPLIT)
  else (400, st)

open BatchStatus in
/-- `validateSplits` (controller): allowed only from `SPLIT_PROPOSED`;
moves to `SPLIT_VALIDATED` once the PDF splitting succeeds. -/
def validateSplitsStep (st : BatchStatus) : Nat × BatchStatus :=
  if st = SPLIT_PROPOSED then (200, SPLIT_VALIDATED) else (400, st)

open BatchStatus in
/-- `extractInvoiceData`: allowed only from `SPLIT_VALIDATED`; moves to
`EXTRACTING_DATA`. -/
def extractInvoiceDataStep (st : BatchStatus) : Nat × BatchStatus :=
  if st = SPLIT_VALIDATED then (200, EXTRACTING_DATA) else (400, st)

/-- C8 (confirmed): each lifecycle operation succeeds exactly from its
allowed source statuses, and every rejected request answers 400 with
the batch status unchanged. -/
theorem batchLifecycleGuards (st : BatchStatus) :
    (startProcessingStep st = (200, .PROCESSING_SPLIT) ↔
       st = .UPLOADED ∨ st = .SPLIT_PROPOSED ∨ st = .PROCESSING_FAILED) ∧
    ((startProcessingStep st).1 = 400 → (startProcessingStep st).2 = st) ∧
    (validateSplitsStep st = (200, .SPLIT_VALIDATED) ↔ st = .SPLIT_PROPOSED) ∧
    ((validateSplitsStep st).1 = 400 → (validateSplitsStep st).2 = st) ∧
    (extractInvoiceDataStep st = (200, .EXTRACTING_DATA) ↔ st = .SPLIT_VALIDATED) ∧
    ((extractInvoiceDataStep st).1 = 400 → (extractInvoiceDataStep st).2 = st) := by
  cases st <;> exact (by decide)

/-- Witness for `batchLifecycleGuards`: in the terminal `ERROR` status
all three operations are rejected with the status unchanged. -/
theorem batchLifecycleGuards_witness :
    (startProcessingStep .ERROR).2 = .ERROR ∧
    (validateSplitsStep .ERROR).2 = .ERROR ∧
    (extractInvoiceDataStep .ERROR).2 = .ERROR :=
  ⟨(batchLifecycleGuards .ERROR).2.1 (by decide),
   (batchLifecycleGuards .ERROR).2.2.2.1 (by decide),
   (batchLifecycleGuards .ERROR).2.2.2.2.2 (by decide)⟩

/-! ## Per-sub-document extraction isolation

The extraction loop of `extractBatchInvoiceData`
(`processing.controller.js`, lines 493–670) and its terminal status
update.  The per-split extraction call
`processInvoiceWithFullMapping` lives in the archived extraction module
(not part of the sources); it is modelled from the spec. -/

/-- Modelled from the spec: `processInvoiceWithFullMapping`, the
archived layout-analysis/mapping service, whose contract §6 fixes as
"Failure surfaces as a structured `{success:false, error}` result,
never an exception escaping to the caller"; on success it carries the
mapping metadata's average confidence (`metadata.averageConfidence || 0`). -/
structure ExtractionResult where
  success : Bool
  error : String
  confidence : ℚ
  deriving DecidableEq, Repr

/-- A validated split as consumed by the extraction loop. -/
structure SplitInfo where
  id : String
  invoiceNumber : String
  deriving DecidableEq, Repr

/-- The entry appended for one split: the success branch records the
extracted payload with the mapping confidence; the failure branch
records confidence 0 and the error message. -/
structure InvoiceEntry where
  splitId : String
  invoiceNumber : String
  confidence : ℚ
  errorMsg : Option String
  deriving DecidableEq, Repr

/-- One iteration of the extraction loop. -/
def recordSplit (oracle : SplitInfo → ExtractionResult) (split : SplitInfo) :
    InvoiceEntry :=
  let r := oracle split
  if r.success then
    { splitId := split.id, invoiceNumber := split.invoiceNumber,
      confidence := r.confidence, errorMsg := none }
  else
    { splitId := split.id, invoiceNumber := split.invoiceNumber,
      confidence := 0, errorMsg := some r.error }

/-- `extractBatchInvoiceData` on a batch with validated splits: no
validated splits throws (`'No validated splits found'`), which the
outer catch turns into `ERROR`; otherwise every split is processed in
order and the batch ends in `DATA_VALIDATION_PENDING`. -/
def extractBatchInvoiceData (oracle : SplitInfo → ExtractionResult)
    (splits : List SplitInfo) : List InvoiceEntry × BatchStatus :=
  if splits.isEmpty then ([], .ERROR)
  else (splits.map (recordSplit oracle), .DATA_VALIDATION_PENDING)

/-- C9 (confirmed): with at least one validated split, the batch
processes *every* split (one entry per split, in order), each failing
split contributes an entry with confidence 0 carrying its error
message, and the batch never ends in `ERROR` — extraction failures are
isolated per sub-document. -/
theorem extractBatch_failure_isolation (oracle : SplitInfo → ExtractionResult)
    (splits : List SplitInfo) (hne : splits ≠ []) :
    (extractBatchInvoiceData oracle splits).1.length = splits.length ∧
    (∀ s ∈ splits, (oracle s).success = false →
       ({ splitId := s.id, invoiceNumber := s.invoiceNumber, confidence := 0,
          errorMsg := some (oracle s).error } : InvoiceEntry)
         ∈ (extractBatchInvoiceData oracle splits).1) ∧
    (extractBatchInvoiceData oracle splits).2 ≠ .ERROR := by
  obtain ⟨a, l, rfl⟩ : ∃ a l, splits = a :: l := by
    cases splits with
    | nil => exact absurd rfl hne
    | cons a l => exact ⟨a, l, rfl⟩
  refine ⟨by simp [extractBatchInvoiceData], ?_, by simp [extractBatchInvoiceData]⟩
  intro s hs hfail
  have hrec : recordSplit oracle s =
      { splitId := s.id, invoiceNumber := s.invoiceNumber, confidence := 0,
        errorMsg := some (oracle s).error } := by
    simp only [recordSplit]
    rw [hfail]
    rfl
  have hmem : recordSplit oracle s ∈ (a :: l).map (recordSplit oracle) :=
    List.mem_map_of_mem _ hs
  rw [hrec] at hmem
  simpa [extractBatchInvoiceData] using hmem

/-- Witness for `extractBatch_failure_isolation`: two splits, the first
failing, the second succeeding — both are processed, the failure is
recorded with confidence 0 and its message, and the batch ends in
`DATA_VALIDATION_PENDING`. -/
theorem extractBatch_failure_isolation_witness :
    extractBatchInvoiceData
        (fun s => if s.id = "split_1"
                  then ⟨false, "layout analysis failed", 0⟩
                  else ⟨true, "", mkRat 9 10⟩)
        [⟨"split_1", "Invoice 1"⟩, ⟨"split_2", "Invoice 2"⟩]
      = ([⟨"split_1", "Invoice 1", 0, some "layout analysis failed"⟩,
          ⟨"split_2", "Invoice 2", mkRat 9 10, none⟩], .DATA_VALIDATION_PENDING) ∧
    ([⟨"split_1", "Invoice 1"⟩, ⟨"split_2", "Invoice 2"⟩] : List SplitInfo) ≠ [] ∧
    (extractBatchInvoiceData
        (fun s => if s.id = "split_1"
                  then ⟨false, "layout analysis failed", 0⟩
                  else ⟨true, "", mkRat 9 10⟩)
        [⟨"split_1", "Invoice 1"⟩, ⟨"split_2", "Invoice 2"⟩]).2 ≠ .ERROR := by
  refine ⟨by decide, by decide, ?_⟩
  exact (extractBatch_failure_isolation _ _ (by decide)).2.2
